import Mathlib

/-!
Shallow embedding of the COLMAP visual-retrieval index
(`src/retrieval/visual_index.h`). The header under verification declares the
`VisualIndex` class interface: option structs with their default values, the
public operations (`Build`, `Add`, `Prepare`, `Query`, `QueryWithVerification`,
`Read`, `Write`, `NumVisualWords`) and the private state (`visual_words_`,
`inverted_index_`, `image_ids_`, `prepared_`). The method bodies are not part
of the sources, so the operations are modelled from the specification's
description of the algorithms; the option structs and their defaults are
embedded directly from the header.
-/

namespace ColmapRetrieval

/-- A feature descriptor: a fixed-length vector of unsigned byte components in
the source (`DescType`), modelled as a list of naturals. -/
abbrev Desc := List Nat

/-- Per-descriptor keypoint geometry (`GeomType`). The core stores and
forwards it but never interprets it, so it is modelled as an opaque payload. -/
abbrev Geom := List Nat

/-- From `VisualIndex::kProjDescDim`: the dimension of the projected
(Hamming-embedded) descriptor space, i.e. the embedding bit width. -/
def kProjDescDim : Nat := 64

/-- From `VisualIndex::kMaxNumThreads`: sentinel meaning "use all available
hardware parallelism". -/
def kMaxNumThreads : Int := -1

/-- From `VisualIndex::IndexOptions` with the header's default values. -/
structure IndexOptions where
  num_neighbors : Nat := 1
  num_checks : Nat := 256
  num_threads : Int := kMaxNumThreads
  deriving Repr, DecidableEq

/-- From `VisualIndex::QueryOptions` with the header's default values.
`max_num_images` and `max_num_verifications` keep the C++ `int` type because
negative values mean "unbounded". -/
structure QueryOptions where
  max_num_images : Int := -1
  max_num_verifications : Int := -1
  num_neighbors : Nat := 5
  num_checks : Nat := 256
  num_threads : Int := kMaxNumThreads
  deriving Repr, DecidableEq

/-- From `VisualIndex::BuildOptions` with the header's default values. -/
structure BuildOptions where
  num_visual_words : Nat := 256 * 256
  branching : Nat := 256
  num_iterations : Nat := 11
  target_precision : ℚ := 9 / 10
  num_checks : Nat := 256
  num_threads : Int := kMaxNumThreads
  deriving Repr, DecidableEq

/-- An `(image id, score)` result pair (`ImageScore`). Scores are modelled as
exact rationals. -/
structure ImageScore where
  image_id : Int
  score : ℚ
  deriving Repr, DecidableEq

/-- An entry of a visual word's inverted list: image id, embedded bit code and
the optional forwarded geometry. -/
structure EmbeddedEntry where
  image_id : Int
  bits : List Bool
  geometry : Option Geom
  deriving Repr, DecidableEq

/-- Error taxonomy of the specification (§7) restricted to the errors the
claims mention. -/
inductive VError where
  | configuration
  | duplicateImage
  deriving Repr, DecidableEq

/-- The observable state of a `VisualIndex`: the visual-word centroids
(`visual_words_`), the per-word embedding thresholds, the inverted lists and
cached per-word weights (`inverted_index_`), the indexed image ids
(`image_ids_`) and the prepared flag (`prepared_`). -/
structure VState where
  vocabulary : List Desc
  medians : List (List Nat)
  invertedLists : List (List EmbeddedEntry)
  weights : List ℚ
  image_ids : List Int
  prepared : Bool
  deriving Repr, DecidableEq

/-- Squared L2 distance between two descriptors (componentwise). -/
def sqDist (a b : Desc) : Nat :=
  ((a.zip b).map (fun p => (max p.1 p.2 - min p.1 p.2) ^ 2)).sum

/-- Componentwise mean of a cluster's member descriptors. -/
def centroidOf (members : List Desc) : Desc :=
  match members with
  | [] => []
  | m :: _ =>
    (List.range m.length).map
      (fun i => ((members.map (fun d => d.getD i 0)).sum) / members.length)

/-- Cut a list into contiguous chunks of size `c` (fuel-bounded). -/
def chunksAux (c : Nat) : Nat → List Desc → List (List Desc)
  | 0, _ => []
  | _, [] => []
  | Nat.succ f, xs => xs.take c :: chunksAux c f (xs.drop c)

/-- Index of the first minimum of a list of keys. -/
def argminIdx (ks : List Nat) : Nat :=
  match ks with
  | [] => 0
  | k :: rest =>
    (rest.enum.foldl
      (fun acc p => if p.2 < acc.2 then (p.1 + 1, p.2) else acc) (0, k)).1

/-- One Lloyd refinement step: reassign every member to its nearest centroid
and drop the clusters that became empty. -/
def lloydStep (members : List Desc) (cs : List Desc) : List (List Desc) :=
  ((List.range cs.length).map
    (fun i => members.filter (fun d => argminIdx (cs.map (sqDist d)) = i))).filter
    (fun g => !g.isEmpty)

/-- Modelled from the spec (§4.1, the `Quantize` body is not in the sources):
cluster a node's members into up to `b` children using `k` k-means refinement
iterations. The initial partition is deterministic contiguous chunking. -/
def kmeansSplit (b k : Nat) (members : List Desc) : List (List Desc) :=
  let c := max 1 ((members.length + b - 1) / max 1 b)
  let init := chunksAux c members.length members
  (((List.range k).foldl
      (fun gs _ => lloydStep members (gs.map centroidOf)) init)).filter
    (fun g => !g.isEmpty)

/-- Modelled from the spec (§4.1): scan the current leaves for the first one
that can be split — it must hold at least two members, split into at least two
children, and keep the total leaf count (here `total` is the current count)
within the target `W`. Returns the new leaf list, or `none` when no leaf
qualifies. -/
def trySplit (b k W total : Nat) : List (List Desc) → Option (List (List Desc))
  | [] => none
  | l :: ls =>
    let c := kmeansSplit b k l
    if 2 ≤ l.length ∧ 2 ≤ c.length ∧ total - 1 + c.length ≤ W then
      some (c ++ ls)
    else
      (trySplit b k W total ls).map (fun ls2 => l :: ls2)

/-- Modelled from the spec (§4.1): repeatedly split leaves until no further
split respects the member-count threshold and the target leaf count `W`. -/
def growLoop (b k W : Nat) : Nat → List (List Desc) → List (List Desc)
  | 0, leaves => leaves
  | Nat.succ fuel, leaves =>
    match trySplit b k W leaves.length leaves with
    | none => leaves
    | some leaves2 => growLoop b k W fuel leaves2

/-- Modelled from the spec (§4.1): hierarchical partition of the training set
into at most `num_visual_words` leaf clusters. -/
def quantizeLeaves (o : BuildOptions) (descs : List Desc) : List (List Desc) :=
  if o.num_visual_words = 0 then []
  else growLoop o.branching o.num_iterations o.num_visual_words
    o.num_visual_words [descs]

/-- The spec's fixed neutral threshold used for words fitted from fewer than
two training samples (§4.2). -/
def kNeutralThreshold : Nat := 128

/-- Pad or cut a descriptor to the projected dimension. The projection of the
embedding model is the identity onto the first `kProjDescDim` components
(a deterministic implementation choice the spec allows, §4.2). -/
def padTo (n : Nat) (d : Desc) : Desc := (d ++ List.replicate n 0).take n

/-- Median of a list of naturals (middle element of the sorted list). -/
def medianOf (xs : List Nat) : Nat :=
  (xs.mergeSort (fun a b => decide (a ≤ b))).getD (xs.length / 2) 0

/-- Modelled from the spec (§4.2): per-word per-dimension median thresholds
learned from the word's training members, with the neutral fallback for words
holding fewer than two samples. -/
def wordMedians (members : List Desc) : List Nat :=
  if members.length < 2 then List.replicate kProjDescDim kNeutralThreshold
  else (List.range kProjDescDim).map
    (fun i => medianOf (members.map (fun d => (padTo kProjDescDim d).getD i 0)))

/-- Modelled from the spec (§4.1, §4.2; the `Build` body is not in the
sources): validate the options, quantize the descriptor space into visual
words and fit the per-word embedding thresholds. An empty training set or a
branching factor below 2 fails with a configuration error and produces no
vocabulary. -/
def Build (o : BuildOptions) (descs : List Desc) : Except VError VState :=
  if descs.isEmpty then .error .configuration
  else if o.branching < 2 then .error .configuration
  else
    let leaves := quantizeLeaves o descs
    .ok { vocabulary := leaves.map centroidOf
          medians := leaves.map wordMedians
          invertedLists := leaves.map (fun _ => [])
          weights := []
          image_ids := []
          prepared := false }

/-- From `VisualIndex::NumVisualWords`: the number of visual words is the
number of stored centroids. -/
def NumVisualWords (s : VState) : Nat := s.vocabulary.length

/-- Modelled from the spec (§4.2): embed a descriptor under one visual word by
thresholding each projected dimension against the word's learned median. -/
def embed (medians : List Nat) (d : Desc) : List Bool :=
  ((padTo kProjDescDim d).zip medians).map (fun p => decide (p.2 < p.1))

/-- Hamming distance between two embedded codes: the number of differing
bits. -/
def hamming (a b : List Bool) : Nat :=
  ((a.zip b).filter (fun p => p.1 != p.2)).length

/-- Modelled from the spec (§4.1 `AssignWords`, the `FindWordIds` body is not
in the sources): the `k` nearest visual-word ids for a descriptor, by squared
distance to the centroids, ties broken by ascending word id. The model is the
exact-search instance of the contract (the approximation knobs `num_checks`
and `target_precision` only trade recall for speed). -/
def nearestWords (voc : List Desc) (k : Nat) (d : Desc) : List Nat :=
  (((voc.map (sqDist d)).enum).mergeSort
      (fun p q => decide (p.2 < q.2) || (decide (p.2 = q.2) && decide (p.1 ≤ q.1)))).take k
    |>.map (fun p => p.1)

/-- Append an entry to the inverted list of word `w`. -/
def appendAt (ls : List (List EmbeddedEntry)) (w : Nat) (e : EmbeddedEntry) :
    List (List EmbeddedEntry) :=
  ls.set w (ls.getD w [] ++ [e])

/-- Modelled from the spec (§4.4 `Add`, the body is not in the sources):
reject a duplicate image id; otherwise assign every descriptor to its
`num_neighbors` nearest words, embed it under each assigned word, append the
entry (with the matching geometry when supplied) to each assigned word's
inverted list, and record the image id. -/
def Add (o : IndexOptions) (image_id : Int) (geoms : List Geom)
    (descs : List Desc) (s : VState) : Except VError VState :=
  if image_id ∈ s.image_ids then .error .duplicateImage
  else
    let lists := descs.enum.foldl
      (fun acc p =>
        (nearestWords s.vocabulary o.num_neighbors p.2).foldl
          (fun acc2 w =>
            appendAt acc2 w
              { image_id := image_id
                bits := embed (s.medians.getD w []) p.2
                geometry := geoms[p.1]? }) acc)
      s.invertedLists
    .ok { s with invertedLists := lists, image_ids := image_id :: s.image_ids }

/-- Number of distinct images contributing to an inverted list. -/
def distinctImages (l : List EmbeddedEntry) : Nat :=
  ((l.map (fun e => e.image_id)).dedup).length

/-- Modelled from the spec (§4.3 `Prepare`): the inverse-document-frequency
weight of one word, a monotonically decreasing function of the number of
distinct images in its list relative to the total number of indexed images. -/
def idfWeight (numImages : Nat) (l : List EmbeddedEntry) : ℚ :=
  if distinctImages l = 0 then 0
  else (numImages : ℚ) / (distinctImages l : ℚ)

/-- Modelled from the spec (§4.4 `Prepare`): recompute every word's weight and
set the prepared flag. -/
def Prepare (s : VState) : VState :=
  { s with
    weights := s.invertedLists.map (idfWeight s.image_ids.dedup.length)
    prepared := true }

/-- Modelled from the spec (§4.2): the distance-decreasing falloff weight of a
contributing entry; monotonically non-increasing in the Hamming distance. -/
def hammingFalloff (d : Nat) : ℚ := 1 / (d + 1 : ℚ)

/-- Modelled from the spec (§4.2): the configurable Hamming distance threshold
(at most `kProjDescDim`); entries beyond it contribute zero score. -/
def kDefaultHammingThreshold : Nat := 32

/-- Score contribution of one stored entry against one assigned query code:
zero beyond the Hamming threshold `t`, otherwise the word weight times the
distance falloff. -/
def entryContribution (t : Nat) (weight : ℚ) (qbits bits : List Bool) : ℚ :=
  if hamming qbits bits ≤ t then weight * hammingFalloff (hamming qbits bits)
  else 0

/-- The embedded codes a given image stored in one inverted list. -/
def imageBits (l : List EmbeddedEntry) (img : Int) : List (List Bool) :=
  (l.filter (fun e => decide (e.image_id = img))).map (fun e => e.bits)

/-- Accumulated score one assigned query code contributes to one image from
one word's inverted list. -/
def wordScore (t : Nat) (weight : ℚ) (qbits : List Bool)
    (l : List EmbeddedEntry) (img : Int) : ℚ :=
  ((imageBits l img).map (entryContribution t weight qbits)).sum

/-- Modelled from the spec (§4.3 `Score`): the accumulated score of one image
over all assigned `(word id, embedded query code)` pairs, at Hamming distance
threshold `t`. -/
def scoreOf (t : Nat) (lists : List (List EmbeddedEntry)) (weights : List ℚ)
    (assigned : List (Nat × List Bool)) (img : Int) : ℚ :=
  (assigned.map
    (fun p => wordScore t (weights.getD p.1 0) p.2 (lists.getD p.1 []) img)).sum

/-- Assign every query descriptor to its `num_neighbors` nearest words and
embed it under each assigned word. -/
def assignQuery (o : QueryOptions) (s : VState) (descs : List Desc) :
    List (Nat × List Bool) :=
  (descs.map (fun d =>
    (nearestWords s.vocabulary o.num_neighbors d).map
      (fun w => (w, embed (s.medians.getD w []) d)))).flatten

/-- The result comparator: descending score, ties broken by ascending image
id (spec §4.4). -/
def scoreLe (a b : ImageScore) : Bool :=
  decide (b.score < a.score) ||
    (decide (a.score = b.score) && decide (a.image_id ≤ b.image_id))

/-- The strict ranking order of a returned result list: strictly descending
score, or equal scores with strictly ascending image id. -/
def resultOrder (a b : ImageScore) : Prop :=
  b.score < a.score ∨ (a.score = b.score ∧ a.image_id < b.image_id)

/-- One scored candidate per distinct indexed image id. -/
def queryScored (o : QueryOptions) (descs : List Desc) (s : VState) :
    List ImageScore :=
  s.image_ids.dedup.map
    (fun id => ImageScore.mk id
      (scoreOf kDefaultHammingThreshold s.invertedLists s.weights
        (assignQuery o s descs) id))

/-- The candidates with nonzero accumulated score, sorted by descending score
with ascending-id tie-break. -/
def queryRanked (o : QueryOptions) (descs : List Desc) (s : VState) :
    List ImageScore :=
  ((queryScored o descs s).filter (fun is => decide (is.score ≠ 0))).mergeSort
    scoreLe

/-- Modelled from the spec (§4.4 `Query`, the body is not in the sources):
accumulate a score per candidate image, keep the candidates with nonzero
score, sort by descending score with ascending-id tie-break, and truncate to
`max_num_images` (unbounded if negative). -/
def Query (o : QueryOptions) (descs : List Desc) (s : VState) :
    List ImageScore :=
  if o.max_num_images < 0 then queryRanked o descs s
  else (queryRanked o descs s).take o.max_num_images.toNat

/-- Modelled from the spec (§4.4 `QueryWithVerification`): run `Query`, pass
the top `max_num_verifications` candidates (all, if negative) to the external
verifier, replace their scores with the verified scores and re-sort that head;
the tail keeps its original scores and order. -/
def QueryWithVerification (o : QueryOptions) (verify : Int → ℚ)
    (geoms : List Geom) (descs : List Desc) (s : VState) : List ImageScore :=
  let base := Query o descs s
  let nv := if o.max_num_verifications < 0 then base.length
    else o.max_num_verifications.toNat
  let verified := ((base.take nv).map
    (fun is => ImageScore.mk is.image_id (verify is.image_id))).mergeSort scoreLe
  verified ++ base.drop nv

/-- One public operation of the `VisualIndex` state machine (§4.4). The
verified query carries the external verifier as an opaque reranking
function. -/
inductive Cmd where
  | build (o : BuildOptions) (descs : List Desc)
  | add (o : IndexOptions) (image_id : Int) (geoms : List Geom)
      (descs : List Desc)
  | prepare
  | query (o : QueryOptions) (descs : List Desc)
  | queryV (o : QueryOptions) (verify : Int → ℚ) (geoms : List Geom)
      (descs : List Desc)

/-- Step semantics of one operation: the successor state and the produced
result list, if any. The two query operations are const methods in the header
and return the state unchanged. -/
def stepCmd : Cmd → VState → Except VError (VState × Option (List ImageScore))
  | .build o d, _ => (Build o d).map (fun s2 => (s2, none))
  | .add o id g d, s => (Add o id g d s).map (fun s2 => (s2, none))
  | .prepare, s => .ok (Prepare s, none)
  | .query o d, s => .ok (s, some (Query o d s))
  | .queryV o v g d, s => .ok (s, some (QueryWithVerification o v g d s))

/-- Run a sequence of operations from a state, collecting the query
results. -/
def runCmds : List Cmd → VState → Except VError (VState × List (List ImageScore))
  | [], s => .ok (s, [])
  | c :: cs, s => do
    let (s2, out) ← stepCmd c s
    let (s3, outs) ← runCmds cs s2
    .ok (s3, match out with | none => outs | some r => r :: outs)

/-- The freshly constructed, unbuilt index (`VisualIndex::VisualIndex`). -/
def initState : VState :=
  { vocabulary := []
    medians := []
    invertedLists := []
    weights := []
    image_ids := []
    prepared := false }

/-- Magic number of the persisted index file (§6). -/
def kMagic : Nat := 0xC07A9

/-- Format version of the persisted index file (§6). -/
def kFormatVersion : Nat := 1

/-- Encode an integer as a sign token followed by its magnitude. -/
def encInt (i : Int) : List Nat := [if i < 0 then 1 else 0, i.natAbs]

/-- Decode an integer. -/
def decInt : List Nat → Option (Int × List Nat)
  | 0 :: m :: ts => some ((m : Int), ts)
  | 1 :: m :: ts => some (-(m : Int), ts)
  | _ => none

/-- Encode a boolean as one token. -/
def encBool (b : Bool) : List Nat := [if b then 1 else 0]

/-- Decode a boolean. -/
def decBool : List Nat → Option (Bool × List Nat)
  | 0 :: ts => some (false, ts)
  | 1 :: ts => some (true, ts)
  | _ => none

/-- Encode a rational as its numerator and denominator. -/
def encRat (q : ℚ) : List Nat := encInt q.num ++ [q.den]

/-- Decode a rational. -/
def decRat (ts : List Nat) : Option (ℚ × List Nat) := do
  let (n, ts2) ← decInt ts
  match ts2 with
  | d :: ts3 => some ((n : ℚ) / (d : ℚ), ts3)
  | [] => none

/-- Encode a raw vector of naturals, length-prefixed. -/
def encNatList (xs : List Nat) : List Nat := xs.length :: xs

/-- Decode a length-prefixed raw vector of naturals. -/
def decNatList : List Nat → Option (List Nat × List Nat)
  | n :: ts => if n ≤ ts.length then some (ts.take n, ts.drop n) else none
  | [] => none

/-- Encode an embedded bit code, length-prefixed. -/
def encBits (bs : List Bool) : List Nat :=
  bs.length :: bs.map (fun b => if b then 1 else 0)

/-- Decode a length-prefixed embedded bit code. -/
def decBits : List Nat → Option (List Bool × List Nat)
  | n :: ts =>
    if n ≤ ts.length then some ((ts.take n).map (fun t => t == 1), ts.drop n)
    else none
  | [] => none

/-- Encode an optional geometry payload. -/
def encGeomOpt : Option Geom → List Nat
  | none => [0]
  | some g => 1 :: g.length :: g

/-- Decode an optional geometry payload. -/
def decGeomOpt : List Nat → Option (Option Geom × List Nat)
  | 0 :: ts => some (none, ts)
  | 1 :: n :: ts =>
    if n ≤ ts.length then some (some (ts.take n), ts.drop n) else none
  | _ => none

/-- Encode one inverted-list entry: image id, bit code, optional geometry
(§6). -/
def encEntry (e : EmbeddedEntry) : List Nat :=
  encInt e.image_id ++ encBits e.bits ++ encGeomOpt e.geometry

/-- Decode one inverted-list entry. -/
def decEntry (ts : List Nat) : Option (EmbeddedEntry × List Nat) := do
  let (id, t1) ← decInt ts
  let (bits, t2) ← decBits t1
  let (g, t3) ← decGeomOpt t2
  some ({ image_id := id, bits := bits, geometry := g }, t3)

/-- Encode a list of records, count-prefixed. -/
def encodeList (enc : α → List Nat) (xs : List α) : List Nat :=
  xs.length :: (xs.map enc).flatten

/-- Decode exactly `n` consecutive records. -/
def decodeCount (dec : List Nat → Option (α × List Nat)) :
    Nat → List Nat → Option (List α × List Nat)
  | 0, ts => some ([], ts)
  | Nat.succ n, ts => do
    let (a, ts2) ← dec ts
    let (as, ts3) ← decodeCount dec n ts2
    some (a :: as, ts3)

/-- Decode a count-prefixed list of records. -/
def decodeList (dec : List Nat → Option (α × List Nat)) :
    List Nat → Option (List α × List Nat)
  | [] => none
  | n :: ts => decodeCount dec n ts

/-- Modelled from the spec (§6, the `Write` body is not in the sources): the
persisted index file as a token sequence — header (magic, version, embedding
bit width, vocabulary size), vocabulary centroids, per-word embedding
thresholds, per-word inverted lists, indexed image ids, prepared flag and the
per-word weight cache. -/
def Write (s : VState) : List Nat :=
  kMagic :: kFormatVersion :: kProjDescDim :: s.vocabulary.length ::
    (encodeList encNatList s.vocabulary ++
     encodeList encNatList s.medians ++
     encodeList (encodeList encEntry) s.invertedLists ++
     encodeList encInt s.image_ids ++
     encBool s.prepared ++
     encodeList encRat s.weights)

/-- Modelled from the spec (§6, the `Read` body is not in the sources): parse
a persisted index file, validating the header, the vocabulary size and that no
trailing tokens remain. -/
def Read (ts : List Nat) : Option VState :=
  match ts with
  | magic :: ver :: dim :: n :: rest =>
    if magic = kMagic ∧ ver = kFormatVersion ∧ dim = kProjDescDim then do
      let (voc, r1) ← decodeList decNatList rest
      if voc.length = n then do
        let (med, r2) ← decodeList decNatList r1
        let (lists, r3) ← decodeList (decodeList decEntry) r2
        let (ids, r4) ← decodeList decInt r3
        let (p, r5) ← decBool r4
        let (ws, r6) ← decodeList decRat r5
        if r6 = [] then
          some { vocabulary := voc
                 medians := med
                 invertedLists := lists
                 weights := ws
                 image_ids := ids
                 prepared := p }
        else none
      else none
    else none
  | _ => none

/-! ## Concrete witness inputs -/

/-- Concrete input for the C1 witness. -/
def c1opts : BuildOptions :=
  { num_visual_words := 3, branching := 2, num_iterations := 1 }

/-- Concrete training set for the C1 witness. -/
def c1descs : List Desc := [[0], [10], [200]]

/-- The state the C1 witness `Build` run produces. -/
def c1state : VState :=
  match Build c1opts c1descs with
  | .ok s => s
  | .error _ => initState

/-- Concrete state for the C5 witness. -/
def c5state : VState :=
  { initState with image_ids := [7] }

/-- Concrete operation sequence for the C8 witness. -/
def c8pipeline : List Cmd :=
  [.build c1opts c1descs,
   .add {} 5 [] [[0], [10]],
   .add {} 3 [] [[200]],
   .prepare,
   .query {} [[0]]]

/-- Concrete inverted lists for the C6 witness. -/
def c6lists : List (List EmbeddedEntry) :=
  [[{ image_id := 7, bits := List.replicate 64 false, geometry := none },
    { image_id := 7, bits := List.replicate 64 true, geometry := none }]]

/-- Concrete assigned query codes for the C6 witness. -/
def c6assigned : List (Nat × List Bool) := [(0, List.replicate 64 false)]

/-- Concrete prepared state for the C3 witness. -/
def qsState : VState :=
  { vocabulary := [[0], [200]]
    medians := [List.replicate 64 128, List.replicate 64 128]
    invertedLists :=
      [[{ image_id := 5, bits := List.replicate 64 false, geometry := none },
        { image_id := 3, bits := List.replicate 64 true, geometry := none }],
       []]
    weights := [2, 1]
    image_ids := [5, 3]
    prepared := true }

/-- Concrete prepared state for the C4 witness: images 5 and 7 store
identical embedded entries under every word. -/
def c4s : VState :=
  { vocabulary := [[0]]
    medians := [List.replicate 64 128]
    invertedLists :=
      [[{ image_id := 5, bits := List.replicate 64 false, geometry := none },
        { image_id := 7, bits := List.replicate 64 false, geometry := none }]]
    weights := [2]
    image_ids := [5, 7]
    prepared := true }

/-! ## Helper lemmas -/

theorem trySplit_some (b k W t : Nat) :
    ∀ ls ls2 : List (List Desc), trySplit b k W t ls = some ls2 →
      1 ≤ ls.length ∧
        ∃ c, 2 ≤ c ∧ t - 1 + c ≤ W ∧ ls2.length + 1 = ls.length + c := by
  intro ls
  induction ls with
  | nil => intro ls2 h; simp [trySplit] at h
  | cons l ls ih =>
    intro ls2 h
    simp only [trySplit] at h
    split at h
    · rename_i hcond
      obtain ⟨h1, h2, h3⟩ := hcond
      obtain rfl := Option.some.inj h
      refine ⟨by simp, (kmeansSplit b k l).length, h2, h3, ?_⟩
      simp only [List.length_append, List.length_cons]
      omega
    · obtain ⟨a, ha, rfl⟩ := Option.map_eq_some'.mp h
      obtain ⟨hlen, c, hc2, hcW, hceq⟩ := ih a ha
      exact ⟨by simp, c, hc2, hcW, by simp only [List.length_cons]; omega⟩

theorem growLoop_length_le (b k W : Nat) :
    ∀ fuel leaves, leaves.length ≤ W → (growLoop b k W fuel leaves).length ≤ W := by
  intro fuel
  induction fuel with
  | zero => intro leaves h; simpa [growLoop] using h
  | succ f ih =>
    intro leaves h
    rw [growLoop]
    cases hts : trySplit b k W leaves.length leaves with
    | none => simpa using h
    | some l2 =>
      apply ih
      obtain ⟨hlen, c, hc2, hcW, hceq⟩ := trySplit_some b k W _ leaves l2 hts
      omega

theorem quantizeLeaves_length_le (o : BuildOptions) (descs : List Desc) :
    (quantizeLeaves o descs).length ≤ o.num_visual_words := by
  unfold quantizeLeaves
  split
  · rename_i h; simp [h]
  · rename_i h
    exact growLoop_length_le _ _ _ _ _ (by simp; omega)

/-! ## Claim theorems -/

/-- C1: for every `Build` call, the value of `NumVisualWords` after a
successful `Build` is at most the requested `num_visual_words`; the actual
leaf count may be less, never more. -/
theorem build_num_visual_words_le (o : BuildOptions) (descs : List Desc)
    (s : VState) (h : Build o descs = .ok s) :
    NumVisualWords s ≤ o.num_visual_words := by
  unfold Build at h
  split at h
  · exact absurd h (by simp)
  split at h
  · exact absurd h (by simp)
  obtain rfl := (Except.ok.inj h).symm
  simpa [NumVisualWords] using quantizeLeaves_length_le o descs

theorem build_num_visual_words_le_witness :
    NumVisualWords c1state ≤ c1opts.num_visual_words :=
  build_num_visual_words_le c1opts c1descs c1state rfl

/-- C5: `Add` with an image id already contained in the indexed image id set
fails with the duplicate-image error, and consequently a `Nodup` image id set
stays `Nodup` across every successful `Add`. -/
theorem add_duplicate_rejected (o : IndexOptions) (id : Int) (g : List Geom)
    (d : List Desc) (s : VState) :
    (id ∈ s.image_ids → Add o id g d s = .error .duplicateImage) ∧
    (∀ s2, Add o id g d s = .ok s2 → s.image_ids.Nodup → s2.image_ids.Nodup) := by
  constructor
  · intro h; simp [Add, h]
  · intro s2 h hnd
    by_cases hm : id ∈ s.image_ids
    · simp [Add, hm] at h
    · simp only [Add, if_neg hm] at h
      obtain rfl := (Except.ok.inj h).symm
      simpa using ⟨hm, hnd⟩

theorem add_duplicate_rejected_witness :
    (Add {} 7 [] [] c5state = .error .duplicateImage) ∧
    ((Add {} 9 [] [] c5state).toOption.getD initState).image_ids.Nodup :=
  ⟨(add_duplicate_rejected {} 7 [] [] c5state).1 (by decide),
   (add_duplicate_rejected {} 9 [] [] c5state).2
     ((Add {} 9 [] [] c5state).toOption.getD initState) rfl (by decide)⟩

/-- C9: `Build` fails with the configuration error on an empty training set
and on a branching factor below 2; in both cases no vocabulary is produced
(the call returns an error instead of a state). -/
theorem build_configuration_errors (o : BuildOptions) (descs : List Desc) :
    (descs = [] → Build o descs = .error .configuration) ∧
    (o.branching < 2 → Build o descs = .error .configuration) := by
  constructor
  · intro h; subst h; simp [Build]
  · intro h
    cases hd : descs.isEmpty
    · simp [Build, hd, h]
    · simp [Build, hd]

theorem build_configuration_errors_witness :
    (Build {} [] = .error .configuration) ∧
    (Build { branching := 1 } [[0]] = .error .configuration) :=
  ⟨(build_configuration_errors {} []).1 rfl,
   (build_configuration_errors { branching := 1 } [[0]]).2 (by decide)⟩

/-- C10: under default options the word assignment is asymmetric — each
indexed descriptor is assigned to its 1 nearest visual word while each query
descriptor is assigned to its 5 nearest visual words. -/
theorem default_num_neighbors_asymmetry :
    ({} : IndexOptions).num_neighbors = 1 ∧
      ({} : QueryOptions).num_neighbors = 5 :=
  ⟨rfl, rfl⟩

/-- C7: the two query operations are pure reads — whenever a `query` or
`queryV` step succeeds, the successor state's vocabulary, inverted lists,
image id set and prepared flag all equal the input state's. -/
theorem query_steps_pure (o : QueryOptions) (d : List Desc) (v : Int → ℚ)
    (g : List Geom) (s : VState) :
    (∀ s2 out, stepCmd (.query o d) s = .ok (s2, out) →
      s2.vocabulary = s.vocabulary ∧ s2.invertedLists = s.invertedLists ∧
        s2.image_ids = s.image_ids ∧ s2.prepared = s.prepared) ∧
    (∀ s2 out, stepCmd (.queryV o v g d) s = .ok (s2, out) →
      s2.vocabulary = s.vocabulary ∧ s2.invertedLists = s.invertedLists ∧
        s2.image_ids = s.image_ids ∧ s2.prepared = s.prepared) := by
  constructor <;>
    · intro s2 out h
      simp only [stepCmd, Except.ok.injEq, Prod.mk.injEq] at h
      obtain ⟨rfl, -⟩ := h
      exact ⟨rfl, rfl, rfl, rfl⟩

theorem query_steps_pure_witness :
    c5state.vocabulary = c5state.vocabulary ∧
      c5state.invertedLists = c5state.invertedLists ∧
        c5state.image_ids = c5state.image_ids ∧
          c5state.prepared = c5state.prepared :=
  (query_steps_pure {} [[0]] (fun _ => 0) [] c5state).1 c5state
    (some (Query {} [[0]] c5state)) rfl

/-- C8: the whole pipeline is deterministic — two runs of the same operation
sequence (`Build`, `Add`s, `Prepare`, `Query`) from equal initial states
return equal results, scores and order included. -/
theorem pipeline_deterministic (cs1 cs2 : List Cmd) (s1 s2 : VState)
    (h1 : cs1 = cs2) (h2 : s1 = s2) : runCmds cs1 s1 = runCmds cs2 s2 := by
  subst h1; subst h2; rfl

theorem pipeline_deterministic_witness :
    runCmds c8pipeline initState = runCmds c8pipeline initState :=
  pipeline_deterministic c8pipeline c8pipeline initState initState rfl rfl

theorem hammingFalloff_nonneg (d : Nat) : 0 ≤ hammingFalloff d := by
  unfold hammingFalloff
  positivity

theorem getD_nonneg (ws : List ℚ) (hw : ∀ w ∈ ws, 0 ≤ w) (n : Nat) :
    0 ≤ ws.getD n 0 := by
  rcases lt_or_ge n ws.length with h | h
  · rw [List.getD_eq_getElem?_getD, List.getElem?_eq_getElem h]
    exact hw _ (List.getElem_mem h)
  · rw [List.getD_eq_getElem?_getD, List.getElem?_eq_none h]
    exact le_refl 0

theorem entryContribution_mono (t t2 : Nat) (w : ℚ) (hw : 0 ≤ w)
    (ht : t ≤ t2) (qb bb : List Bool) :
    entryContribution t w qb bb ≤ entryContribution t2 w qb bb := by
  unfold entryContribution
  split
  · rename_i hin
    rw [if_pos (le_trans hin ht)]
  · split
    · exact mul_nonneg hw (hammingFalloff_nonneg _)
    · exact le_refl 0

/-- C6: for fixed index contents, query and embeddings, increasing the
Hamming distance threshold never decreases any image's accumulated score:
within-threshold entries contribute a nonnegative monotone-falloff weight and
entries beyond the threshold contribute zero. -/
theorem score_monotone_in_threshold (t t2 : Nat)
    (lists : List (List EmbeddedEntry)) (weights : List ℚ)
    (assigned : List (Nat × List Bool)) (img : Int)
    (hw : ∀ w ∈ weights, 0 ≤ w) (ht : t ≤ t2) :
    scoreOf t lists weights assigned img ≤
      scoreOf t2 lists weights assigned img := by
  unfold scoreOf
  apply List.sum_le_sum
  intro p _
  unfold wordScore
  apply List.sum_le_sum
  intro bb _
  exact entryContribution_mono t t2 _ (getD_nonneg weights hw p.1) ht p.2 bb

theorem score_monotone_in_threshold_witness :
    (∀ w ∈ [(2 : ℚ)], 0 ≤ w) ∧ (8 : Nat) ≤ 64 ∧
      scoreOf 8 c6lists [2] c6assigned 7 ≤ scoreOf 64 c6lists [2] c6assigned 7 :=
  ⟨by decide, by decide,
    score_monotone_in_threshold 8 64 c6lists [2] c6assigned 7 (by decide)
      (by decide)⟩

theorem decInt_encInt (i : Int) (r : List Nat) :
    decInt (encInt i ++ r) = some (i, r) := by
  by_cases hi : i < 0
  · have hv : -(i.natAbs : Int) = i := by omega
    simp only [encInt, if_pos hi, List.cons_append, List.nil_append, decInt]
    rw [hv]
  · have hv : (i.natAbs : Int) = i := by omega
    simp only [encInt, if_neg hi, List.cons_append, List.nil_append, decInt]
    rw [hv]

theorem decBool_encBool (b : Bool) (r : List Nat) :
    decBool (encBool b ++ r) = some (b, r) := by
  cases b <;> rfl

theorem decRat_encRat (q : ℚ) (r : List Nat) :
    decRat (encRat q ++ r) = some (q, r) := by
  have h : encRat q ++ r = encInt q.num ++ (q.den :: r) := by
    simp [encRat]
  rw [h]
  simp [decRat, decInt_encInt, Rat.num_div_den]

theorem decNatList_encNatList (xs : List Nat) (r : List Nat) :
    decNatList (encNatList xs ++ r) = some (xs, r) := by
  simp only [encNatList, List.cons_append, decNatList]
  rw [if_pos (by simp)]
  rw [List.take_left, List.drop_left]

theorem decBits_encBits (bs : List Bool) (r : List Nat) :
    decBits (encBits bs ++ r) = some (bs, r) := by
  simp only [encBits, List.cons_append, decBits]
  rw [if_pos (by simp)]
  have hlen : bs.length = (bs.map (fun b => if b then 1 else 0)).length := by
    simp
  rw [hlen, List.take_left, List.drop_left, List.map_map]
  have hb : bs.map ((fun t => t == 1) ∘ fun b => if b then (1 : Nat) else 0) = bs := by
    conv_rhs => rw [← List.map_id bs]
    exact List.map_congr_left (fun b _ => by cases b <;> rfl)
  rw [hb]

theorem decGeomOpt_encGeomOpt (og : Option Geom) (r : List Nat) :
    decGeomOpt (encGeomOpt og ++ r) = some (og, r) := by
  cases og with
  | none => rfl
  | some g =>
    simp only [encGeomOpt, List.cons_append, decGeomOpt]
    rw [if_pos (by simp)]
    rw [List.take_left, List.drop_left]

theorem decEntry_encEntry (e : EmbeddedEntry) (r : List Nat) :
    decEntry (encEntry e ++ r) = some (e, r) := by
  simp only [encEntry, List.append_assoc]
  simp [decEntry, decInt_encInt, decBits_encBits, decGeomOpt_encGeomOpt]

theorem decodeCount_flatten (dec : List Nat → Option (α × List Nat))
    (enc : α → List Nat) (h : ∀ a r, dec (enc a ++ r) = some (a, r)) :
    ∀ (xs : List α) (r : List Nat),
      decodeCount dec xs.length ((xs.map enc).flatten ++ r) = some (xs, r) := by
  intro xs
  induction xs with
  | nil => intro r; simp [decodeCount]
  | cons x xs ih =>
    intro r
    simp only [List.map_cons, List.flatten_cons, List.length_cons,
      List.append_assoc, decodeCount, h, Option.bind_eq_bind,
      Option.some_bind, ih]

theorem decodeList_encodeList (dec : List Nat → Option (α × List Nat))
    (enc : α → List Nat) (h : ∀ a r, dec (enc a ++ r) = some (a, r))
    (xs : List α) (r : List Nat) :
    decodeList dec (encodeList enc xs ++ r) = some (xs, r) := by
  simp only [encodeList, List.cons_append, decodeList]
  exact decodeCount_flatten dec enc h xs r

theorem read_write (s : VState) : Read (Write s) = some s := by
  have hvoc := decodeList_encodeList decNatList encNatList decNatList_encNatList
  have hentries := decodeList_encodeList (decodeList decEntry)
    (encodeList encEntry) (decodeList_encodeList decEntry encEntry decEntry_encEntry)
  have hints := decodeList_encodeList decInt encInt decInt_encInt
  have hrats := decodeList_encodeList decRat encRat decRat_encRat
  have hrats0 : decodeList decRat (encodeList encRat s.weights) =
      some (s.weights, []) := by
    have := hrats s.weights []
    rwa [List.append_nil] at this
  simp only [Write, Read, List.append_assoc, Option.bind_eq_bind, hvoc,
    hentries, hints, decBool_encBool, hrats0, Option.some_bind]
  simp

/-- C2: `Write` then `Read` into a fresh index reconstructs a state with
identical `Query` results for every fixed query and preserves the prepared
flag (in particular an unprepared state stays unprepared), for every index
state. -/
theorem write_read_roundtrip (s : VState) (o : QueryOptions) (d : List Desc) :
    ∃ s2, Read (Write s) = some s2 ∧ Query o d s2 = Query o d s ∧
      s2.prepared = s.prepared :=
  ⟨s, read_write s, rfl, rfl⟩

theorem scoreLe_trans (a b c : ImageScore) (hab : scoreLe a b = true)
    (hbc : scoreLe b c = true) : scoreLe a c = true := by
  simp only [scoreLe, Bool.or_eq_true, Bool.and_eq_true,
    decide_eq_true_eq] at hab hbc ⊢
  rcases hab with h1 | ⟨h1, h2⟩ <;> rcases hbc with h3 | ⟨h3, h4⟩
  · exact Or.inl (lt_trans h3 h1)
  · exact Or.inl (by rw [← h3]; exact h1)
  · exact Or.inl (by rw [h1]; exact h3)
  · exact Or.inr ⟨h1.trans h3, le_trans h2 h4⟩

theorem scoreLe_total (a b : ImageScore) :
    (scoreLe a b || scoreLe b a) = true := by
  simp only [scoreLe, Bool.or_eq_true, Bool.and_eq_true, decide_eq_true_eq]
  rcases lt_trichotomy a.score b.score with h | h | h
  · exact Or.inr (Or.inl h)
  · rcases le_total a.image_id b.image_id with hi | hi
    · exact Or.inl (Or.inr ⟨h, hi⟩)
    · exact Or.inr (Or.inr ⟨h.symm, hi⟩)
  · exact Or.inl (Or.inl h)

theorem queryScored_map_id (o : QueryOptions) (d : List Desc) (s : VState) :
    (queryScored o d s).map (fun is => is.image_id) = s.image_ids.dedup := by
  rw [queryScored, List.map_map]
  exact List.map_id _

theorem queryRanked_pairwise (o : QueryOptions) (d : List Desc) (s : VState) :
    (queryRanked o d s).Pairwise resultOrder := by
  have hsorted : (queryRanked o d s).Pairwise (fun a b => scoreLe a b = true) :=
    List.sorted_mergeSort scoreLe_trans scoreLe_total _
  have hbig : ((queryScored o d s).map (fun is => is.image_id)).Nodup := by
    rw [queryScored_map_id]
    exact List.nodup_dedup _
  have hsub :
      (((queryScored o d s).filter (fun is => decide (is.score ≠ 0))).map
        (fun is => is.image_id)).Sublist
        ((queryScored o d s).map (fun is => is.image_id)) :=
    List.Sublist.map _ (List.filter_sublist _)
  have hfil := List.Nodup.sublist hsub hbig
  have hperm :
      ((queryRanked o d s).map (fun is => is.image_id)).Perm
        (((queryScored o d s).filter (fun is => decide (is.score ≠ 0))).map
          (fun is => is.image_id)) :=
    (List.mergeSort_perm _ scoreLe).map _
  have hnodup : ((queryRanked o d s).map (fun is => is.image_id)).Nodup :=
    hperm.symm.nodup hfil
  have hne : (queryRanked o d s).Pairwise
      (fun a b => a.image_id ≠ b.image_id) :=
    List.pairwise_map.mp hnodup
  refine (hsorted.and hne).imp ?_
  intro a b h
  obtain ⟨hle, hne2⟩ := h
  simp only [scoreLe, Bool.or_eq_true, Bool.and_eq_true,
    decide_eq_true_eq] at hle
  rcases hle with h1 | ⟨h1, h2⟩
  · exact Or.inl h1
  · exact Or.inr ⟨h1, lt_of_le_of_ne h2 hne2⟩

/-- C3: for a prepared index, `Query` with `max_num_images = k` (`k`
nonnegative) returns at most `k` entries, and `Query` with
`max_num_images = -1` returns exactly the candidate images with a nonzero
accumulated score, without truncation. -/
theorem query_bounds (o : QueryOptions) (d : List Desc) (s : VState) :
    (0 ≤ o.max_num_images →
      (Query o d s).length ≤ o.max_num_images.toNat) ∧
    (o.max_num_images = -1 → ∀ is : ImageScore, is ∈ Query o d s ↔
      (is.image_id ∈ s.image_ids ∧
        is.score = scoreOf kDefaultHammingThreshold s.invertedLists s.weights
          (assignQuery o s d) is.image_id ∧
        is.score ≠ 0)) := by
  constructor
  · intro h
    rw [Query, if_neg (by omega)]
    rw [List.length_take]
    exact min_le_left _ _
  · intro h is
    rw [Query, if_pos (by omega)]
    rw [queryRanked, queryScored, (List.mergeSort_perm _ scoreLe).mem_iff,
      List.mem_filter]
    constructor
    · rintro ⟨hmem, hnz⟩
      obtain ⟨id, hid, rfl⟩ := List.mem_map.mp hmem
      exact ⟨List.mem_dedup.mp hid, rfl, by simpa using hnz⟩
    · rintro ⟨hid, hsc, hnz⟩
      refine ⟨List.mem_map.mpr ⟨is.image_id, List.mem_dedup.mpr hid, ?_⟩,
        by simpa using hnz⟩
      cases is with
      | mk i sc =>
        simp only at hsc
        exact congrArg (ImageScore.mk i) hsc.symm

theorem query_bounds_witness :
    ((Query { max_num_images := 1 } [[0]] qsState).length ≤
      (1 : Int).toNat) ∧
    (({ image_id := 5, score := 2 } : ImageScore) ∈ Query {} [[0]] qsState ↔
      ((5 : Int) ∈ qsState.image_ids ∧
        (2 : ℚ) = scoreOf kDefaultHammingThreshold qsState.invertedLists
          qsState.weights (assignQuery {} qsState [[0]]) 5 ∧
        (2 : ℚ) ≠ 0)) :=
  ⟨(query_bounds { max_num_images := 1 } [[0]] qsState).1 (by decide),
   (query_bounds {} [[0]] qsState).2 rfl { image_id := 5, score := 2 }⟩

/-- C4: every `Query` result sequence is sorted by strictly descending score
with equal-score entries in strictly ascending image id order; and two images
whose embedded entries are identical under all words receive equal accumulated
scores. -/
theorem query_sorted_tiebreak (o : QueryOptions) (d : List Desc) (s : VState) :
    (Query o d s).Pairwise resultOrder ∧
    (∀ (t : Nat) (ws : List ℚ) (assigned : List (Nat × List Bool))
      (i1 i2 : Int),
      (∀ w, imageBits (s.invertedLists.getD w []) i1 =
        imageBits (s.invertedLists.getD w []) i2) →
      scoreOf t s.invertedLists ws assigned i1 =
        scoreOf t s.invertedLists ws assigned i2) := by
  constructor
  · rw [Query]
    split
    · exact queryRanked_pairwise o d s
    · exact List.Pairwise.sublist (List.take_sublist _ _)
        (queryRanked_pairwise o d s)
  · intro t ws assigned i1 i2 h
    unfold scoreOf
    apply congrArg List.sum
    apply List.map_congr_left
    intro p _
    unfold wordScore
    rw [h p.1]

theorem query_sorted_tiebreak_witness :
    (Query {} [[0]] c4s).Pairwise resultOrder ∧
    scoreOf 8 c4s.invertedLists [2] [(0, List.replicate 64 false)] 5 =
      scoreOf 8 c4s.invertedLists [2] [(0, List.replicate 64 false)] 7 :=
  ⟨(query_sorted_tiebreak {} [[0]] c4s).1,
   (query_sorted_tiebreak {} [[0]] c4s).2 8 [2]
     [(0, List.replicate 64 false)] 5 7 (fun w => by cases w <;> rfl)⟩

end ColmapRetrieval
